import Mathlib

/-!
# playlstr: a shallow embedding of the Feedly client and the album-title parser

The development follows the two Go packages of the repository:

* `feedly/feedly.go`: the `Client`, its endpoints, `StreamFilter` and `encodeStreamFilter`;
* `playlstr/main.go`: `getAlbumsFromBoard`, `parseAlbumFromEntry`, `parseFunkySoulsEntry`.

Modelling conventions.

* A Go `string` is a `List Char` (`GoString`): the strings this program handles come out of
  `encoding/json`, which only yields valid UTF-8, so a string is its sequence of code points.
  Indices are positions in that sequence.  The bytes searched for by the code (`-`, `[`) are ASCII,
  so searching for the byte and searching for the character find the same place.
* A Go `error` is `Option GoError`, `none` being `nil`.
* The `*url.URL` held by the client is one mutable cell; every method that writes
  `u := c.baseURL; u.Path = ...` writes into that cell, because `u` is a copy of the pointer.
* `Client.Fetch` and `Client.doRequest` are the boundary of the model: they are the fetch and send
  collaborators.  A call is recorded in the state and answered by a `Remote`, which may look at
  the calls made so far.
* Standard output is the list of `AlbumMeta` values printed so far.
-/

namespace Playlstr

/-! ## Go strings and the `strings` package -/

/-- A Go string, as its sequence of code points. -/
abbrev GoString := List Char

/-- Go `unicode.IsSpace`: the Latin-1 cases, then the `White_Space` table. -/
def IsSpace (r : Char) : Bool :=
  if r.toNat ≤ 0xFF then
    r.toNat = 0x09 || r.toNat = 0x0A || r.toNat = 0x0B || r.toNat = 0x0C || r.toNat = 0x0D
      || r.toNat = 0x20 || r.toNat = 0x85 || r.toNat = 0xA0
  else
    r.toNat = 0x1680 || (0x2000 ≤ r.toNat && r.toNat ≤ 0x200A) || r.toNat = 0x2028
      || r.toNat = 0x2029 || r.toNat = 0x202F || r.toNat = 0x205F || r.toNat = 0x3000

/-- Go `strings.TrimLeftFunc`: drop the leading characters satisfying `f`. -/
def TrimLeftFunc (s : GoString) (f : Char → Bool) : GoString :=
  s.dropWhile f

/-- Go `strings.TrimRightFunc`: drop the trailing characters satisfying `f`. -/
def TrimRightFunc (s : GoString) (f : Char → Bool) : GoString :=
  (s.reverse.dropWhile f).reverse

/-- Go `strings.TrimFunc`. -/
def TrimFunc (s : GoString) (f : Char → Bool) : GoString :=
  TrimRightFunc (TrimLeftFunc s f) f

/-- Go `strings.TrimSpace`. -/
def TrimSpace (s : GoString) : GoString :=
  TrimFunc s IsSpace

/-- Go `strings.IndexByte`: position of the first `c`, or `-1`. -/
def IndexByte : GoString → Char → Int
  | [], _ => -1
  | x :: xs, c =>
    if x = c then 0
    else
      let m := IndexByte xs c
      if m < 0 then -1 else m + 1

/-- The loop of Go `strings.LastIndexByte`, scanning `i = n-1, ..., 0`. -/
def lastIndexLoop (s : GoString) (c : Char) : Nat → Int
  | 0 => -1
  | i + 1 => if s[i]? = some c then (i : Int) else lastIndexLoop s c i

/-- Go `strings.LastIndexByte`: position of the last `c`, or `-1`. -/
def LastIndexByte (s : GoString) (c : Char) : Int :=
  lastIndexLoop s c s.length

/-- The loop of Go `strings.genSplit` for a one-byte separator, `n` cuts still allowed. -/
def genSplit (sep : Char) : Nat → GoString → List GoString
  | 0, s => [s]
  | n + 1, s =>
    let m := IndexByte s sep
    if m < 0 then [s]
    else s.take m.toNat :: genSplit sep n (s.drop (m.toNat + 1))

/-- Go `strings.SplitN(s, sep, n)` for a one-byte separator and `n ≥ 0`. -/
def SplitN (s : GoString) (sep : Char) (n : Nat) : List GoString :=
  if n = 0 then []
  else genSplit sep (min n (s.length + 1) - 1) s

/-! ## Errors -/

/-- A Go error value: `errors.New`, `fmt.Errorf` (format and arguments, not rendered), or an
error reported by a collaborator. -/
inductive GoError where
  | new (msg : GoString)
  | errorf (format : GoString) (args : List GoString)
  | remote (msg : GoString)
  deriving DecidableEq

/-! ## `time.Time` -/

/-- A `time.Time` instant: seconds since January 1, year 1 00:00:00 UTC, and nanoseconds.
The location does not take part in `IsZero` or `Unix` and is left out. -/
structure Time where
  sec : Int
  nsec : Nat
  deriving DecidableEq

/-- The zero value of `time.Time`. -/
def Time.zero : Time := { sec := 0, nsec := 0 }

/-- Go `unixToInternal`: seconds from year 1 to 1970. -/
def unixToInternal : Int := (1969 * 365 + 1969 / 4 - 1969 / 100 + 1969 / 400) * 86400

/-- Go `internalToUnix`. -/
def internalToUnix : Int := -unixToInternal

/-- Two's complement wrap-around of `int64` arithmetic. -/
def wrapInt64 (x : Int) : Int := (x + 2 ^ 63) % 2 ^ 64 - 2 ^ 63

/-- Go `Time.IsZero`. -/
def Time.IsZero (t : Time) : Bool := t.sec = 0 && t.nsec = 0

/-- Go `Time.Unix`: seconds since January 1, 1970 UTC. -/
def Time.Unix (t : Time) : Int := wrapInt64 (t.sec + internalToUnix)

/-- Go `time.Unix(sec, nsec)` for `0 ≤ nsec < 1e9`. -/
def Time.ofUnix (sec : Int) (nsec : Nat) : Time :=
  { sec := wrapInt64 (sec + unixToInternal), nsec := nsec }

/-- Go `strconv.FormatInt(i, 10)`. -/
def FormatInt (i : Int) : GoString :=
  if i < 0 then '-' :: Nat.toDigits 10 i.natAbs else Nat.toDigits 10 i.natAbs

/-! ## Data shapes of `feedly.go` (the `float32` fields, which no code reads, are left out) -/

structure Feed where
  ID : GoString := []
  Title : GoString := []
  Description : GoString := []
  State : GoString := []
  Website : GoString := []
  Label : GoString := []
  Topics : List GoString := []
  Curated : Bool := false
  Language : GoString := []
  deriving DecidableEq

structure Tag where
  ID : GoString := []
  Label : GoString := []
  Description : GoString := []
  deriving DecidableEq

structure EntryOrigin where
  StreamID : GoString := []
  Title : GoString := []
  URL : GoString := []
  deriving DecidableEq

structure Category where
  ID : GoString := []
  Label : GoString := []
  deriving DecidableEq

/-- Go struct Meta; its field Type is named Kind here, Type being reserved. -/
structure Meta where
  Kind : GoString := []
  Href : GoString := []
  deriving DecidableEq

structure Image where
  URL : GoString := []
  deriving DecidableEq

structure Text where
  Direction : GoString := []
  Content : GoString := []
  deriving DecidableEq

structure Entry where
  ID : GoString := []
  SID : GoString := []
  Title : GoString := []
  Summary : Text := {}
  Engagement : Int := 0
  Tags : List Tag := []
  Author : GoString := []
  Unread : Bool := false
  OriginID : GoString := []
  Origin : EntryOrigin := {}
  Published : Int := 0
  Updated : Int := 0
  Crawled : Int := 0
  Recrawled : Int := 0
  Categories : List Category := []
  Canonical : Meta := {}
  Thumbnail : List Image := []
  Fingerprint : GoString := []
  Keywords : List GoString := []
  deriving DecidableEq

structure StreamFilter where
  ID : GoString := []
  Count : Nat := 0
  Ranked : GoString := []
  UnreadOnly : Bool := false
  NewerThan : Time := Time.zero
  Continuation : GoString := []
  deriving DecidableEq

structure StreamContent where
  ID : GoString := []
  Title : GoString := []
  Updated : Int := 0
  Items : List Entry := []
  Alternate : List Meta := []
  Direction : GoString := []
  Continuation : GoString := []
  deriving DecidableEq

/-- The anonymous response struct of `StreamListEntries`. -/
structure StreamIDs where
  IDs : List GoString := []
  Continuation : GoString := []
  deriving DecidableEq

/-- `AlbumMeta` of `main.go`. -/
structure AlbumMeta where
  Artist : GoString := []
  Title : GoString := []
  ReleaseDate : Time := Time.zero
  deriving DecidableEq

/-! ## The `net/url` package: escaping, `Values`, `URL` -/

/-- The escaping modes of `net/url` that this program reaches. -/
inductive encoding where
  | encodePath
  | encodeHost
  | encodeQueryComponent
  deriving DecidableEq

/-- The UTF-8 bytes of a code point: what a Go string stores for it. -/
def utf8Bytes (c : Char) : List Nat :=
  let v := c.toNat
  if v ≤ 0x7F then [v]
  else if v ≤ 0x7FF then [0xC0 + v / 64, 0x80 + v % 64]
  else if v ≤ 0xFFFF then [0xE0 + v / 4096, 0x80 + v / 64 % 64, 0x80 + v % 64]
  else [0xF0 + v / 262144, 0x80 + v / 4096 % 64, 0x80 + v / 64 % 64, 0x80 + v % 64]

/-- The bytes of a Go string. -/
def bytes (s : GoString) : List Nat :=
  s.flatMap utf8Bytes

/-- Go `shouldEscape(c, mode)` of `net/url`, on a byte. -/
def shouldEscape (c : Nat) (mode : encoding) : Bool :=
  if (0x61 ≤ c && c ≤ 0x7A) || (0x41 ≤ c && c ≤ 0x5A) || (0x30 ≤ c && c ≤ 0x39) then false
  else if mode = encoding.encodeHost &&
      (c = 0x21 || c = 0x24 || c = 0x26 || c = 0x27 || c = 0x28 || c = 0x29 || c = 0x2A
        || c = 0x2B || c = 0x2C || c = 0x3B || c = 0x3D || c = 0x3A || c = 0x5B || c = 0x5D
        || c = 0x3C || c = 0x3E || c = 0x22) then false
  else if c = 0x2D || c = 0x5F || c = 0x2E || c = 0x7E then false
  else if c = 0x24 || c = 0x26 || c = 0x2B || c = 0x2C || c = 0x2F || c = 0x3A || c = 0x3B
      || c = 0x3D || c = 0x3F || c = 0x40 then
    match mode with
    | encoding.encodePath => c = 0x3F
    | encoding.encodeQueryComponent => true
    | encoding.encodeHost => true
  else true

/-- Go `upperhex`. -/
def upperhex : GoString := "0123456789ABCDEF".toList

/-- The digit `upperhex[n]`. -/
def hexDigit (n : Nat) : Char :=
  upperhex.getD n '0'

/-- What Go `escape` writes for one byte. -/
def escapeByte (mode : encoding) (c : Nat) : GoString :=
  if shouldEscape c mode then
    if c = 0x20 && mode = encoding.encodeQueryComponent then ['+']
    else ['%', hexDigit (c / 16), hexDigit (c % 16)]
  else [Char.ofNat c]

/-- Go `escape(s, mode)` of `net/url`. -/
def escape (s : GoString) (mode : encoding) : GoString :=
  (bytes s).flatMap (escapeByte mode)

/-- Go `url.QueryEscape`. -/
def QueryEscape (s : GoString) : GoString :=
  escape s encoding.encodeQueryComponent

/-- Go string comparison `a < b`: bytewise, which for UTF-8 is code point by code point. -/
def strLess : GoString → GoString → Bool
  | [], [] => false
  | [], _ :: _ => true
  | _ :: _, [] => false
  | a :: as, b :: bs =>
    if a.toNat < b.toNat then true
    else if b.toNat < a.toNat then false
    else strLess as bs

/-- Insertion of a key into an ascending list of keys. -/
def insertSorted (k : GoString) : List GoString → List GoString
  | [] => [k]
  | x :: xs => if strLess x k then x :: insertSorted k xs else k :: x :: xs

/-- Go `slices.Sort` on the keys of a map. -/
def sortKeys (ks : List GoString) : List GoString :=
  ks.foldr insertSorted []

/-- Go `url.Values`, a `map[string][]string`, as an association list with distinct keys. -/
abbrev Values := List (GoString × List GoString)

/-- Go `Values.Set`: the key is bound to the one-element slice. -/
def Values.Set : Values → GoString → GoString → Values
  | [], key, value => [(key, [value])]
  | (k, vs) :: rest, key, value =>
    if k = key then (k, [value]) :: rest else (k, vs) :: Values.Set rest key value

/-- The map lookup `v[key]`, the nil slice when the key is absent. -/
def Values.lookup : Values → GoString → List GoString
  | [], _ => []
  | (k, vs) :: rest, key => if k = key then vs else Values.lookup rest key

/-- The inner loop of `Values.Encode` over the values of one key. -/
def encodeKey (keyEscaped : GoString) (buf : GoString) (vs : List GoString) : GoString :=
  vs.foldl
    (fun buf v => (if buf.length > 0 then buf ++ ['&'] else buf) ++ keyEscaped ++ ['='] ++
      QueryEscape v)
    buf

/-- Go `Values.Encode`: "URL encoded" form, sorted by key. -/
def Values.Encode (v : Values) : GoString :=
  if v.length = 0 then []
  else (sortKeys (v.map Prod.fst)).foldl
    (fun buf k => encodeKey (QueryEscape k) buf (Values.lookup v k)) []

/-- Go `url.URL`.  `Opaque`, `User`, `RawPath`, `ForceQuery` and `Fragment` keep their zero
value in this program and are left out. -/
structure URL where
  Scheme : GoString := []
  Host : GoString := []
  Path : GoString := []
  RawQuery : GoString := []
  deriving DecidableEq

/-- Go `URL.EscapedPath` when `RawPath` is empty. -/
def URL.EscapedPath (u : URL) : GoString :=
  if u.Path = ['*'] then ['*'] else escape u.Path encoding.encodePath

/-- Go `URL.String` for a URL without opaque part, user info and fragment. -/
def URL.String (u : URL) : GoString :=
  let buf : GoString := if u.Scheme ≠ [] then u.Scheme ++ [':'] else []
  let buf :=
    if u.Scheme ≠ [] ∨ u.Host ≠ [] then
      let buf := if u.Host ≠ [] ∨ u.Path ≠ [] then buf ++ ['/', '/'] else buf
      if u.Host ≠ [] then buf ++ escape u.Host encoding.encodeHost else buf
    else buf
  let path := u.EscapedPath
  let buf := if path ≠ [] ∧ path.head? ≠ some '/' ∧ u.Host ≠ [] then buf ++ ['/'] else buf
  let buf :=
    if buf.length = 0 ∧ ':' ∈ path.takeWhile (fun c => c ≠ '/') then buf ++ ['.', '/'] else buf
  let buf := buf ++ path
  if u.RawQuery ≠ [] then buf ++ ['?'] ++ u.RawQuery else buf

/-- Go `DefaultURL`. -/
def DefaultURL : GoString := "https://cloud.feedly.com".toList

/-- The value `url.ParseRequestURI(DefaultURL)` yields. -/
def parsedDefaultURL : URL :=
  { Scheme := "https".toList, Host := "cloud.feedly.com".toList, Path := [], RawQuery := [] }

/-! ## The client and its collaborators -/

/-- A call that crosses the boundary: `Client.Fetch(urlStr)`, or the POST that `Entries` hands to
`Client.doRequest`, with the ids its body encodes. -/
inductive Call where
  | fetch (urlStr : GoString)
  | send (urlStr : GoString) (ids : List GoString)
  deriving DecidableEq

/-- The remote side: for each target shape, what the collaborator decodes into the target and
the error it returns, given the calls made before and the URL. -/
structure Remote where
  feed : List Call → GoString → Feed × Option GoError
  tags : List Call → GoString → List Tag × Option GoError
  entry : List Call → GoString → Entry × Option GoError
  entries : List Call → GoString → List GoString → List Entry × Option GoError
  streamIDs : List Call → GoString → StreamIDs × Option GoError
  streamContent : List Call → GoString → StreamContent × Option GoError

/-- The state of a run: the URL cell `c.baseURL` points to, the calls made so far (oldest
first), and what was printed. -/
structure State where
  baseURL : URL
  calls : List Call := []
  stdout : List AlbumMeta := []
  deriving DecidableEq

/-- Go `NewClient`: a fresh client, nothing called, nothing printed. -/
def NewClient : State :=
  { baseURL := parsedDefaultURL }

/-- Go `Client.Fetch`, the fetch collaborator: one recorded call, answered by the remote. -/
def Client.Fetch {α : Type} (respond : List Call → GoString → α × Option GoError)
    (urlStr : GoString) (s : State) : (α × Option GoError) × State :=
  (respond s.calls urlStr, { s with calls := s.calls ++ [Call.fetch urlStr] })

/-- Go `Client.doRequest` on the POST request built by `Entries`, the send collaborator. -/
def Client.doRequest (respond : List Call → GoString → List GoString → List Entry × Option GoError)
    (urlStr : GoString) (ids : List GoString) (s : State) :
    (List Entry × Option GoError) × State :=
  (respond s.calls urlStr ids, { s with calls := s.calls ++ [Call.send urlStr ids] })

/-- Go `Client.Feed`. -/
def Client.Feed (net : Remote) (id : GoString) (s : State) : (Feed × Option GoError) × State :=
  if id = [] then (({}, some (GoError.new "no id to fetch".toList)), s)
  else
    let s := { s with baseURL := { s.baseURL with Path := "/v3/feeds/".toList ++ id } }
    Client.Fetch net.feed s.baseURL.String s

/-- Go `Client.Tags`. -/
def Client.Tags (net : Remote) (s : State) : (List Tag × Option GoError) × State :=
  let s := { s with baseURL := { s.baseURL with Path := "/v3/tags".toList } }
  Client.Fetch net.tags s.baseURL.String s

/-- Go `Client.Entries`.  Encoding a `[]string` as JSON cannot fail, and `http.NewRequest`
accepts the URL, which is the rendering of a parsed URL with an escaped path and query; the two
error returns before `doRequest` are therefore never taken. -/
def Client.Entries (net : Remote) (ids : List GoString) (s : State) :
    (List Entry × Option GoError) × State :=
  let s := { s with baseURL := { s.baseURL with Path := "/v3/entries/.mget".toList } }
  Client.doRequest net.entries s.baseURL.String ids s

/-- Go `Client.Entry`. -/
def Client.Entry (net : Remote) (id : GoString) (s : State) : (Entry × Option GoError) × State :=
  if id = [] then (({}, some (GoError.new "no id to fetch".toList)), s)
  else
    let s := { s with baseURL := { s.baseURL with Path := "/v3/entries/".toList ++ id } }
    Client.Fetch net.entry s.baseURL.String s

/-- Go `encodeStreamFilter`: the `url.Values` it fills in, before `Encode`. -/
def streamFilterValues (f : StreamFilter) : Values :=
  let vals : Values := []
  let vals := vals.Set "streamId".toList f.ID
  let vals := if f.Ranked ≠ [] then vals.Set "ranked".toList f.Ranked else vals
  let vals := if f.UnreadOnly then vals.Set "unreadOnly".toList "1".toList else vals
  let vals :=
    if !f.NewerThan.IsZero then
      let t := FormatInt f.NewerThan.Unix
      vals.Set "newerThan".toList t
    else vals
  let vals := if f.Continuation ≠ [] then vals.Set "continuation".toList f.Continuation else vals
  vals

/-- Go `encodeStreamFilter`. -/
def encodeStreamFilter (f : StreamFilter) : GoString :=
  (streamFilterValues f).Encode

/-- Go `Client.StreamListEntries`, returning `((ids, cont), err)`. -/
def Client.StreamListEntries (net : Remote) (f : StreamFilter) (s : State) :
    ((List GoString × GoString) × Option GoError) × State :=
  if f.ID = [] then ((([], []), some (GoError.new "no stream id".toList)), s)
  else
    let s := { s with baseURL := { s.baseURL with Path := "/v3/streams/ids".toList } }
    let s := { s with baseURL := { s.baseURL with RawQuery := encodeStreamFilter f } }
    let r := Client.Fetch net.streamIDs s.baseURL.String s
    (((r.1.1.IDs, r.1.1.Continuation), r.1.2), r.2)

/-- Go `Client.StreamContent`. -/
def Client.StreamContent (net : Remote) (f : StreamFilter) (s : State) :
    (StreamContent × Option GoError) × State :=
  if f.ID = [] then (({}, some (GoError.new "no stream id".toList)), s)
  else
    let s := { s with baseURL := { s.baseURL with Path := "/v3/streams/contents".toList } }
    let s := { s with baseURL := { s.baseURL with RawQuery := encodeStreamFilter f } }
    Client.Fetch net.streamContent s.baseURL.String s

/-! ## `main.go` -/

/-- Go `parseFunkySoulsEntry`: the error it returns, and the state after its `fmt.Printf`. -/
def parseFunkySoulsEntry (data : Entry) (s : State) : Option GoError × State :=
  let parts := SplitN data.Title '-' 2
  if parts.length < 2 then
    (some (GoError.errorf "could not parse album title %q: unsupported format".toList
      [data.Title]), s)
  else
    let artist := parts.getD 0 []
    let title := parts.getD 1 []
    let epos := LastIndexByte title '['
    let title := if epos ≠ -1 then title.take epos.toNat else title
    let meta : AlbumMeta := { Artist := TrimSpace artist, Title := TrimSpace title }
    (none, { s with stdout := s.stdout ++ [meta] })

/-- Go `parseAlbumFromEntry`.  Both branches drop the error value they obtain; the function
ends in `return nil`. -/
def parseAlbumFromEntry (data : Entry) (s : State) : Option GoError × State :=
  if data.Origin.URL = "http://funkysouls.com/".toList then
    let r := parseFunkySoulsEntry data s
    (none, r.2)
  else
    let _unused := GoError.errorf "unknown entry's origin: %v (%q)".toList
      [data.Origin.URL, data.Origin.Title]
    (none, s)

/-- The loop `for _, data := range items { parseAlbumFromEntry(ctx, data) }`. -/
def parseAll : List Entry → State → State
  | [], s => s
  | data :: rest, s => parseAll rest (parseAlbumFromEntry data s).2

/-- The loop of `getAlbumsFromBoard` that picks the first tag labelled `board`, the zero `Tag`
when there is none. -/
def findTag (board : GoString) : List Tag → Tag
  | [] => {}
  | t :: rest => if t.Label = board then t else findTag board rest

/-- How a run of `getAlbumsFromBoard` ends: it returns, or `log.Fatalln` stops the process. -/
inductive Outcome where
  | returned
  | fatal (err : GoError)
  deriving DecidableEq

/-- Go `getAlbumsFromBoard`. -/
def getAlbumsFromBoard (net : Remote) (board : GoString) (s : State) : Outcome × State :=
  let r := Client.Tags net s
  match r.1.2 with
  | some err => (Outcome.fatal err, r.2)
  | none =>
    let tag := findTag board r.1.1
    let f : StreamFilter := { ID := tag.ID }
    let r := Client.StreamContent net f r.2
    match r.1.2 with
    | some err => (Outcome.fatal err, r.2)
    | none => (Outcome.returned, parseAll r.1.1.Items r.2)

/-! ## Specification-side definitions -/

/-- Spec: `t` is `s` with leading and trailing whitespace removed. -/
def Trimmed (t s : GoString) : Prop :=
  ∃ l r, s = l ++ t ++ r ∧ (∀ c ∈ l, IsSpace c = true) ∧ (∀ c ∈ r, IsSpace c = true) ∧
    (∀ c, t.head? = some c → IsSpace c = false) ∧ (∀ c, t.getLast? = some c → IsSpace c = false)

/-- Spec: `title` is `rest` cut at, and excluding, its last `[`; all of `rest` when it has none. -/
def CutAtLastBracket (title rest : GoString) : Prop :=
  ('[' ∉ rest ∧ title = rest) ∨ ∃ tail, rest = title ++ '[' :: tail ∧ '[' ∉ tail

/-- Go `ishex` of `net/url`. -/
def ishex (c : Char) : Bool :=
  (0x30 ≤ c.toNat && c.toNat ≤ 0x39) || (0x61 ≤ c.toNat && c.toNat ≤ 0x66)
    || (0x41 ≤ c.toNat && c.toNat ≤ 0x46)

/-- Go `unhex` of `net/url`. -/
def unhex (c : Char) : Nat :=
  if 0x30 ≤ c.toNat && c.toNat ≤ 0x39 then c.toNat - 0x30
  else if 0x61 ≤ c.toNat && c.toNat ≤ 0x66 then c.toNat - 0x61 + 10
  else if 0x41 ≤ c.toNat && c.toNat ≤ 0x46 then c.toNat - 0x41 + 10
  else 0

/-- Go `url.QueryUnescape`, the result given as its bytes; `none` is an `EscapeError`. -/
def QueryUnescape : GoString → Option (List Nat)
  | [] => some []
  | c :: rest =>
    if c = '%' then
      match rest with
      | a :: b :: rest2 =>
        if ishex a && ishex b then
          (QueryUnescape rest2).map (fun r => (unhex a * 16 + unhex b) :: r)
        else none
      | _ => none
    else if c = '+' then (QueryUnescape rest).map (fun r => 0x20 :: r)
    else (QueryUnescape rest).map (fun r => utf8Bytes c ++ r)

/-- Go `strings.Cut(s, sep)` for a one-byte separator: the text before and after the first
`sep`; all of `s` and the empty string when there is none. -/
def Cut (s : GoString) (sep : Char) : GoString × GoString :=
  let i := IndexByte s sep
  if i ≥ 0 then (s.take i.toNat, s.drop (i.toNat + 1)) else (s, [])

/-- The loop of Go `url.ParseQuery`, with the pairs listed in order of appearance and `none`
when a piece is in error.  Each round removes a piece from `query`, so `query.length + 1`
rounds are enough. -/
def parseQueryLoop : Nat → GoString → Option (List (List Nat × List Nat))
  | 0, query => if query = [] then some [] else none
  | fuel + 1, query =>
    if query = [] then some []
    else
      let piece := Cut query '&'
      if ';' ∈ piece.1 then none
      else if piece.1 = [] then parseQueryLoop fuel piece.2
      else
        let kv := Cut piece.1 '='
        match QueryUnescape kv.1, QueryUnescape kv.2, parseQueryLoop fuel piece.2 with
        | some k, some v, some ps => some ((k, v) :: ps)
        | _, _, _ => none

/-- Go `url.ParseQuery`: the parameters of a query string, keys and values as bytes. -/
def ParseQuery (query : GoString) : Option (List (List Nat × List Nat)) :=
  parseQueryLoop (query.length + 1) query

/-- Spec: the query string `query` contains the parameter `key` with value `value`. -/
def HasParam (query key value : GoString) : Prop :=
  ∃ ps, ParseQuery query = some ps ∧ (bytes key, bytes value) ∈ ps

/-- The text `Values.Encode` writes for one pair. -/
def pairText (p : GoString × GoString) : GoString :=
  QueryEscape p.1 ++ '=' :: QueryEscape p.2

/-- The pairs' texts joined by `&`. -/
def joinPairs : List (GoString × GoString) → GoString
  | [] => []
  | [p] => pairText p
  | p :: q :: rest => pairText p ++ '&' :: joinPairs (q :: rest)

/-- A pair of Go strings as the pair of their bytes. -/
def pairBytes (p : GoString × GoString) : List Nat × List Nat :=
  (bytes p.1, bytes p.2)

/-- The pairs of a `Values`, keys ascending. -/
def sortedPairs (v : Values) : List (GoString × GoString) :=
  (sortKeys (v.map Prod.fst)).flatMap (fun k => (Values.lookup v k).map (fun x => (k, x)))

/-- Spec §4.1: the parameters of an encoded filter, keys ascending: the collection identifier
always; ordering, unread-only flag, time lower-bound and continuation only when set. -/
def streamFilterParams (f : StreamFilter) : List (GoString × GoString) :=
  (if f.Continuation ≠ [] then [("continuation".toList, f.Continuation)] else []) ++
  (if f.NewerThan.IsZero = false then [("newerThan".toList, FormatInt f.NewerThan.Unix)]
    else []) ++
  (if f.Ranked ≠ [] then [("ranked".toList, f.Ranked)] else []) ++
  [("streamId".toList, f.ID)] ++
  (if f.UnreadOnly = true then [("unreadOnly".toList, "1".toList)] else [])

/-- The URL `Client.Tags` requests when the client's URL cell holds `u`. -/
def tagsURL (u : URL) : GoString :=
  URL.String { u with Path := "/v3/tags".toList }

/-- The URL `Client.StreamContent` requests for the filter `f` when the client's URL cell
holds `u`. -/
def contentsURL (u : URL) (f : StreamFilter) : GoString :=
  URL.String { u with Path := "/v3/streams/contents".toList, RawQuery := encodeStreamFilter f }

/-- The URL `Client.StreamListEntries` requests for the filter `f` when the client's URL cell
holds `u`. -/
def idsURL (u : URL) (f : StreamFilter) : GoString :=
  URL.String { u with Path := "/v3/streams/ids".toList, RawQuery := encodeStreamFilter f }

/-- Whether a call is a fetch of the stream contents endpoint. -/
def isStreamFetch : Call → Bool
  | Call.fetch urlStr => "https://cloud.feedly.com/v3/streams/contents".toList.isPrefixOf urlStr
  | Call.send _ _ => false

/-- The number of stream fetch calls among `calls`. -/
def streamFetchCount (calls : List Call) : Nat :=
  (calls.filter isStreamFetch).length

/-- A scripted collaborator: it serves `tags`, and answers the k-th stream fetch with the k-th
page of `pages`. -/
def scriptedRemote (tags : List Tag) (pages : List StreamContent) : Remote :=
  { feed := fun _ _ => ({}, none)
    tags := fun _ _ => (tags, none)
    entry := fun _ _ => ({}, none)
    entries := fun _ _ _ => ([], none)
    streamIDs := fun _ _ => ({}, none)
    streamContent := fun calls _ => (pages.getD (streamFetchCount calls) {}, none) }

/-- Spec §8, "pagination terminates": against the scripted collaborator the run makes one
stream fetch per page and parses the entries of all pages, in order. -/
def CollectsAllPages (tags : List Tag) (board : GoString) (pages : List StreamContent) : Prop :=
  streamFetchCount (getAlbumsFromBoard (scriptedRemote tags pages) board NewClient).2.calls =
      pages.length ∧
    (getAlbumsFromBoard (scriptedRemote tags pages) board NewClient).2.stdout =
      (parseAll (pages.flatMap (fun p => p.Items)) NewClient).stdout

/-- A two-page script: the first page carries a continuation token, the second none. -/
def twoPages : List StreamContent :=
  [ { Items := [{ Title := "A - One [2019]".toList,
                  Origin := { URL := "http://funkysouls.com/".toList } }],
      Continuation := "c1".toList },
    { Items := [{ Title := "B - Two".toList,
                  Origin := { URL := "http://funkysouls.com/".toList } }] } ]

/-- The tag list served with `twoPages`. -/
def boardTags : List Tag :=
  [{ ID := "t0".toList, Label := "Saved".toList },
   { ID := "t1".toList, Label := "Yr Next Playlist".toList },
   { ID := "t2".toList, Label := "Yr Next Playlist".toList }]

/-- Go `PlaylstrBoard`. -/
def PlaylstrBoard : GoString := "Yr Next Playlist".toList

/-! ## Lemmas on the `strings` functions -/

theorem trimLeft_spec (s : GoString) (f : Char → Bool) :
    s = s.takeWhile f ++ TrimLeftFunc s f ∧ (∀ c ∈ s.takeWhile f, f c = true) ∧
      ∀ c, (TrimLeftFunc s f).head? = some c → f c = false := by
  refine ⟨(List.takeWhile_append_dropWhile f s).symm, fun c hc => List.mem_takeWhile_imp hc, ?_⟩
  intro c hc
  have h := List.head?_dropWhile_not f s
  unfold TrimLeftFunc at hc
  rw [hc] at h
  exact h

theorem trimRight_spec (s : GoString) (f : Char → Bool) :
    ∃ r, s = TrimRightFunc s f ++ r ∧ (∀ c ∈ r, f c = true) ∧
      ∀ c, (TrimRightFunc s f).getLast? = some c → f c = false := by
  refine ⟨(s.reverse.takeWhile f).reverse, ?_, ?_, ?_⟩
  · unfold TrimRightFunc
    rw [← List.reverse_append, List.takeWhile_append_dropWhile, List.reverse_reverse]
  · intro c hc
    exact List.mem_takeWhile_imp (List.mem_reverse.mp hc)
  · intro c hc
    unfold TrimRightFunc at hc
    rw [List.getLast?_reverse] at hc
    have h := List.head?_dropWhile_not f s.reverse
    rw [hc] at h
    exact h

theorem trimSpace_spec (s : GoString) : Trimmed (TrimSpace s) s := by
  obtain ⟨hl, hlsp, hhead⟩ := trimLeft_spec s IsSpace
  obtain ⟨r, hr, hrsp, hlast⟩ := trimRight_spec (TrimLeftFunc s IsSpace) IsSpace
  refine ⟨s.takeWhile IsSpace, r, ?_, hlsp, hrsp, ?_, hlast⟩
  · unfold TrimSpace TrimFunc
    rw [List.append_assoc, ← hr]
    exact hl
  · intro c hc
    apply hhead
    rw [hr]
    unfold TrimSpace TrimFunc at hc
    cases ht : TrimRightFunc (TrimLeftFunc s IsSpace) IsSpace with
    | nil => rw [ht] at hc; simp at hc
    | cons x xs => rw [ht] at hc; simpa using hc

theorem indexByte_not_mem (s : GoString) (c : Char) (h : c ∉ s) : IndexByte s c = -1 := by
  induction s with
  | nil => rfl
  | cons x xs ih =>
    have hx : ¬ x = c := fun e => h (by simp [e])
    have hxs : c ∉ xs := fun e => h (by simp [e])
    simp [IndexByte, hx, ih hxs]

theorem indexByte_mem (s : GoString) (c : Char) (h : c ∈ s) :
    ∃ a r, s = a ++ c :: r ∧ c ∉ a ∧ IndexByte s c = (a.length : Int) := by
  induction s with
  | nil => simp at h
  | cons x xs ih =>
    by_cases hx : x = c
    · exact ⟨[], xs, by simp [hx], by simp, by simp [IndexByte, hx]⟩
    · have hxs : c ∈ xs := by
        rcases List.mem_cons.mp h with e | e
        · exact absurd e.symm hx
        · exact e
      obtain ⟨a, r, hs, ha, hi⟩ := ih hxs
      refine ⟨x :: a, r, by simp [hs], ?_, ?_⟩
      · intro hm
        rcases List.mem_cons.mp hm with e | e
        · exact hx e.symm
        · exact ha e
      · have hneg : ¬ ((a.length : Int) < 0) := by omega
        simp [IndexByte, hx, hi, hneg]

theorem lastIndexLoop_not_mem (s : GoString) (c : Char) (h : c ∉ s) (n : Nat) :
    lastIndexLoop s c n = -1 := by
  induction n with
  | zero => rfl
  | succ i ih =>
    have : ¬ s[i]? = some c := by
      intro e
      exact h (List.getElem?_mem e)
    simp [lastIndexLoop, this, ih]

theorem lastIndexLoop_append (b t : GoString) (c : Char) (ht : c ∉ t) (n : Nat)
    (hn : n ≤ t.length) :
    lastIndexLoop (b ++ c :: t) c (b.length + 1 + n) = (b.length : Int) := by
  induction n with
  | zero =>
    have hget : (b ++ c :: t)[b.length]? = some c := by
      rw [List.getElem?_append_right (Nat.le_refl _)]
      simp
    simp only [Nat.add_zero, lastIndexLoop, hget, if_true]
  | succ i ih =>
    have hi : i ≤ t.length := by omega
    have hget : (b ++ c :: t)[b.length + 1 + i]? = t[i]? := by
      rw [List.getElem?_append_right (by omega)]
      have : b.length + 1 + i - b.length = i + 1 := by omega
      rw [this]
      simp
    have hne : ¬ t[i]? = some c := fun e => ht (List.getElem?_mem e)
    rw [← Nat.add_assoc]
    simp only [lastIndexLoop, hget, hne, if_false]
    exact ih hi

theorem lastIndexByte_not_mem (s : GoString) (c : Char) (h : c ∉ s) : LastIndexByte s c = -1 :=
  lastIndexLoop_not_mem s c h s.length

theorem exists_last_split (s : GoString) (c : Char) (h : c ∈ s) :
    ∃ b t, s = b ++ c :: t ∧ c ∉ t := by
  induction s with
  | nil => simp at h
  | cons x xs ih =>
    by_cases hxs : c ∈ xs
    · obtain ⟨b, t, hs, ht⟩ := ih hxs
      exact ⟨x :: b, t, by simp [hs], ht⟩
    · rcases List.mem_cons.mp h with e | e
      · exact ⟨[], xs, by simp [e], hxs⟩
      · exact absurd e hxs

theorem lastIndexByte_mem (s : GoString) (c : Char) (h : c ∈ s) :
    ∃ b t, s = b ++ c :: t ∧ c ∉ t ∧ LastIndexByte s c = (b.length : Int) := by
  obtain ⟨b, t, hs, ht⟩ := exists_last_split s c h
  refine ⟨b, t, hs, ht, ?_⟩
  have := lastIndexLoop_append b t c ht t.length (Nat.le_refl _)
  unfold LastIndexByte
  rw [hs]
  have hl : (b ++ c :: t).length = b.length + 1 + t.length := by
    simp only [List.length_append, List.length_cons]; omega
  rw [hl]
  exact this

theorem splitN_two_mem (s : GoString) (c : Char) (h : c ∈ s) :
    ∃ a r, s = a ++ c :: r ∧ c ∉ a ∧ SplitN s c 2 = [a, r] := by
  obtain ⟨a, r, hs, ha, hi⟩ := indexByte_mem s c h
  refine ⟨a, r, hs, ha, ?_⟩
  have hlen : min 2 (s.length + 1) - 1 = 1 := by
    rw [hs]; simp; omega
  have hneg : ¬ ((a.length : Int) < 0) := by omega
  unfold SplitN
  rw [hlen]
  simp only [genSplit, hi, hneg, if_false]
  simp [hs]

theorem splitN_two_not_mem (s : GoString) (c : Char) (h : c ∉ s) : SplitN s c 2 = [s] := by
  unfold SplitN
  cases hn : min 2 (s.length + 1) - 1 with
  | zero => simp [genSplit]
  | succ n => simp [genSplit, indexByte_not_mem s c h]

/-! ## Lemmas on escaping and query strings -/

set_option maxRecDepth 100000 in
theorem escapeByte_forms : ∀ b : Fin 256,
    (escapeByte encoding.encodeQueryComponent b.val = ['+'] ∧ b.val = 0x20) ∨
    (escapeByte encoding.encodeQueryComponent b.val =
        ['%', hexDigit (b.val / 16), hexDigit (b.val % 16)]) ∨
    (escapeByte encoding.encodeQueryComponent b.val = [Char.ofNat b.val] ∧
        Char.ofNat b.val ≠ '%' ∧ Char.ofNat b.val ≠ '+' ∧ Char.ofNat b.val ≠ '&' ∧
        Char.ofNat b.val ≠ '=' ∧ Char.ofNat b.val ≠ ';' ∧
        utf8Bytes (Char.ofNat b.val) = [b.val]) := by
  decide

theorem hex_facts : ∀ n : Fin 16,
    ishex (hexDigit n.val) = true ∧ unhex (hexDigit n.val) = n.val ∧
    hexDigit n.val ≠ '&' ∧ hexDigit n.val ≠ '=' ∧
    hexDigit n.val ≠ ';' := by
  decide

theorem utf8Bytes_lt (c : Char) : ∀ b ∈ utf8Bytes c, b < 256 := by
  intro b hb
  have hv : c.toNat < 0x110000 := by
    have := c.valid
    rcases this with h | ⟨_, h⟩
    · exact Nat.lt_trans h (by decide)
    · exact h
  unfold utf8Bytes at hb
  simp only at hb
  split at hb
  · simp at hb; omega
  · split at hb
    · simp at hb; omega
    · split at hb
      · simp at hb; omega
      · simp at hb; omega

theorem bytes_lt (s : GoString) : ∀ b ∈ bytes s, b < 256 := by
  intro b hb
  unfold bytes at hb
  obtain ⟨c, _, hc⟩ := List.mem_flatMap.mp hb
  exact utf8Bytes_lt c b hc

theorem queryUnescape_plus (rest : GoString) :
    QueryUnescape ('+' :: rest) = (QueryUnescape rest).map (fun r => 0x20 :: r) := by
  cases rest with
  | nil => simp [QueryUnescape]
  | cons a r =>
    cases r with
    | nil => simp [QueryUnescape]
    | cons b r2 => simp [QueryUnescape]

theorem queryUnescape_percent (a b : Char) (rest : GoString) (ha : ishex a = true)
    (hb : ishex b = true) :
    QueryUnescape ('%' :: a :: b :: rest) =
      (QueryUnescape rest).map (fun r => (unhex a * 16 + unhex b) :: r) := by
  simp [QueryUnescape, ha, hb]

theorem queryUnescape_plain (c : Char) (rest : GoString) (h1 : c ≠ '%') (h2 : c ≠ '+') :
    QueryUnescape (c :: rest) = (QueryUnescape rest).map (fun r => utf8Bytes c ++ r) := by
  cases rest with
  | nil => simp [QueryUnescape, h1, h2]
  | cons a r =>
    cases r with
    | nil => simp [QueryUnescape, h1, h2]
    | cons b r2 => simp [QueryUnescape, h1, h2]

theorem unescape_escapeByte (b : Nat) (hb : b < 256) (rest : GoString) :
    QueryUnescape (escapeByte encoding.encodeQueryComponent b ++ rest) =
      (QueryUnescape rest).map (fun r => b :: r) := by
  rcases escapeByte_forms ⟨b, hb⟩ with ⟨he, h20⟩ | he | ⟨he, h1, h2, _, _, _, hu⟩
  · simp only at he h20
    rw [he, h20]
    exact queryUnescape_plus rest
  · simp only at he
    rw [he]
    have hhi := hex_facts ⟨b / 16, by omega⟩
    have hlo := hex_facts ⟨b % 16, Nat.mod_lt _ (by decide)⟩
    simp only at hhi hlo
    have hsum : b / 16 * 16 + b % 16 = b := by omega
    rw [List.cons_append, List.cons_append, List.cons_append, List.nil_append,
      queryUnescape_percent _ _ rest hhi.1 hlo.1, hhi.2.1, hlo.2.1, hsum]
  · simp only at he h1 h2 hu
    rw [he, List.cons_append, List.nil_append, queryUnescape_plain _ rest h1 h2, hu]
    rfl

theorem unescape_escapeBytes (bs : List Nat) (hbs : ∀ b ∈ bs, b < 256) (rest : GoString) :
    QueryUnescape (bs.flatMap (escapeByte encoding.encodeQueryComponent) ++ rest) =
      (QueryUnescape rest).map (fun r => bs ++ r) := by
  induction bs with
  | nil => simp
  | cons b bs ih =>
    have hb : b < 256 := hbs b (by simp)
    have hrest : ∀ x ∈ bs, x < 256 := fun x hx => hbs x (by simp [hx])
    rw [List.flatMap_cons, List.append_assoc, unescape_escapeByte b hb, ih hrest]
    cases QueryUnescape rest <;> simp

theorem queryUnescape_queryEscape (s : GoString) : QueryUnescape (QueryEscape s) = some (bytes s) := by
  have h := unescape_escapeBytes (bytes s) (bytes_lt s) []
  simpa [QueryEscape, escape, QueryUnescape] using h

theorem queryEscape_clean (s : GoString) :
    ∀ c ∈ QueryEscape s, c ≠ '&' ∧ c ≠ '=' ∧ c ≠ ';' := by
  intro c hc
  unfold QueryEscape escape at hc
  obtain ⟨b, hb, hcb⟩ := List.mem_flatMap.mp hc
  have hlt := bytes_lt s b hb
  rcases escapeByte_forms ⟨b, hlt⟩ with ⟨he, _⟩ | he | ⟨he, _, _, h3, h4, h5, _⟩
  · simp only at he
    rw [he] at hcb
    simp at hcb
    subst hcb
    decide
  · simp only at he
    rw [he] at hcb
    have hhi := hex_facts ⟨b / 16, by omega⟩
    have hlo := hex_facts ⟨b % 16, Nat.mod_lt _ (by decide)⟩
    simp only at hhi hlo
    simp at hcb
    rcases hcb with e | e | e
    · subst e; decide
    · rw [e]; exact hhi.2.2
    · rw [e]; exact hlo.2.2
  · simp only at he h3 h4 h5
    rw [he] at hcb
    simp at hcb
    rw [hcb]
    exact ⟨h3, h4, h5⟩

theorem indexByte_append (a r : GoString) (c : Char) (ha : c ∉ a) :
    IndexByte (a ++ c :: r) c = (a.length : Int) := by
  induction a with
  | nil => simp [IndexByte]
  | cons x xs ih =>
    have hx : ¬ x = c := fun e => ha (by simp [e])
    have hxs : c ∉ xs := fun e => ha (by simp [e])
    have hneg : ¬ ((xs.length : Int) < 0) := by omega
    simp [IndexByte, hx, ih hxs, hneg]

theorem cut_append (a r : GoString) (c : Char) (ha : c ∉ a) : Cut (a ++ c :: r) c = (a, r) := by
  have hnn : (a.length : Int) ≥ 0 := by omega
  simp [Cut, indexByte_append a r c ha, hnn]

theorem cut_not_mem (s : GoString) (c : Char) (h : c ∉ s) : Cut s c = (s, []) := by
  simp [Cut, indexByte_not_mem s c h]

theorem pairText_ne_nil (p : GoString × GoString) : pairText p ≠ [] := by
  simp [pairText]

theorem pairText_clean (p : GoString × GoString) : '&' ∉ pairText p ∧ ';' ∉ pairText p := by
  have h1 := queryEscape_clean p.1
  have h2 := queryEscape_clean p.2
  constructor
  · intro h
    rcases List.mem_append.mp h with h | h
    · exact (h1 _ h).1 rfl
    · rcases List.mem_cons.mp h with h | h
      · exact absurd h (by decide)
      · exact (h2 _ h).1 rfl
  · intro h
    rcases List.mem_append.mp h with h | h
    · exact (h1 _ h).2.2 rfl
    · rcases List.mem_cons.mp h with h | h
      · exact absurd h (by decide)
      · exact (h2 _ h).2.2 rfl

theorem cut_pairText (p : GoString × GoString) :
    Cut (pairText p) '=' = (QueryEscape p.1, QueryEscape p.2) :=
  cut_append _ _ '=' (fun h => (queryEscape_clean p.1 _ h).2.1 rfl)

theorem parseQueryLoop_nil (fuel : Nat) : parseQueryLoop fuel [] = some [] := by
  cases fuel <;> simp [parseQueryLoop]

theorem parseQueryLoop_piece (fuel : Nat) (p : GoString × GoString) (rest : GoString)
    (hcut : Cut (pairText p ++ rest) '&' = (pairText p, rest.drop 1)) :
    parseQueryLoop (fuel + 1) (pairText p ++ rest) =
      (parseQueryLoop fuel (rest.drop 1)).map (fun ps => pairBytes p :: ps) := by
  have hne : ¬ (pairText p ++ rest = []) := by simp [pairText_ne_nil p]
  have hsemi := (pairText_clean p).2
  rw [parseQueryLoop]
  simp only [hne, if_false, hcut, hsemi, pairText_ne_nil p, cut_pairText,
    queryUnescape_queryEscape]
  cases parseQueryLoop fuel (rest.drop 1) <;> simp [pairBytes]

theorem parseQueryLoop_joinPairs (ps : List (GoString × GoString)) :
    ∀ fuel, (joinPairs ps).length ≤ fuel →
      parseQueryLoop fuel (joinPairs ps) = some (ps.map pairBytes) := by
  induction ps with
  | nil => intro fuel _; simp [joinPairs, parseQueryLoop_nil]
  | cons p rest ih =>
    intro fuel hfuel
    cases rest with
    | nil =>
      have hlen : 0 < (pairText p).length := List.length_pos.mpr (pairText_ne_nil p)
      simp only [joinPairs] at hfuel ⊢
      obtain ⟨f, rfl⟩ : ∃ f, fuel = f + 1 := ⟨fuel - 1, by omega⟩
      have h := parseQueryLoop_piece f p []
        (by simpa using cut_not_mem _ '&' (pairText_clean p).1)
      simp only [List.append_nil] at h
      rw [h]
      simp [parseQueryLoop_nil]
    | cons q rest2 =>
      simp only [joinPairs] at hfuel ⊢
      obtain ⟨f, rfl⟩ : ∃ f, fuel = f + 1 := ⟨fuel - 1, by simp at hfuel; omega⟩
      have h := parseQueryLoop_piece f p ('&' :: joinPairs (q :: rest2))
        (by simpa using cut_append _ _ '&' (pairText_clean p).1)
      rw [h]
      simp only [List.drop_succ_cons, List.drop_zero]
      rw [ih f (by simp at hfuel; omega)]
      simp

theorem parseQuery_joinPairs (ps : List (GoString × GoString)) :
    ParseQuery (joinPairs ps) = some (ps.map pairBytes) :=
  parseQueryLoop_joinPairs ps _ (Nat.le_succ _)

theorem joinPairs_ne_nil (p : GoString × GoString) (ps : List (GoString × GoString)) :
    joinPairs (p :: ps) ≠ [] := by
  cases ps <;> simp [joinPairs, pairText_ne_nil]

theorem joinPairs_snoc (acc : List (GoString × GoString)) (p : GoString × GoString) :
    joinPairs (acc ++ [p]) =
      (if (joinPairs acc).length > 0 then joinPairs acc ++ ['&'] else joinPairs acc) ++
        pairText p := by
  induction acc with
  | nil => simp [joinPairs]
  | cons a rest ih =>
    have hpos : (joinPairs (a :: rest)).length > 0 := List.length_pos.mpr (joinPairs_ne_nil a rest)
    rw [if_pos hpos]
    cases rest with
    | nil => simp [joinPairs]
    | cons b rest2 =>
      have hpos2 : (joinPairs (b :: rest2)).length > 0 :=
        List.length_pos.mpr (joinPairs_ne_nil b rest2)
      rw [if_pos hpos2] at ih
      have hj : joinPairs (a :: b :: rest2 ++ [p]) =
          pairText a ++ '&' :: joinPairs (b :: rest2 ++ [p]) := rfl
      have hj2 : joinPairs (a :: b :: rest2) = pairText a ++ '&' :: joinPairs (b :: rest2) := rfl
      rw [hj, ih, hj2]
      simp

theorem encodeKey_joinPairs (k : GoString) (vs : List GoString) :
    ∀ acc : List (GoString × GoString),
      encodeKey (QueryEscape k) (joinPairs acc) vs =
        joinPairs (acc ++ vs.map (fun v => (k, v))) := by
  induction vs with
  | nil => intro acc; simp [encodeKey]
  | cons v rest ih =>
    intro acc
    have hstep : encodeKey (QueryEscape k) (joinPairs acc) (v :: rest) =
        encodeKey (QueryEscape k) (joinPairs (acc ++ [(k, v)])) rest := by
      rw [joinPairs_snoc]
      simp [encodeKey, pairText]
    rw [hstep, ih]
    simp

theorem encode_foldl (v : Values) (ks : List GoString) :
    ∀ acc : List (GoString × GoString),
      ks.foldl (fun buf k => encodeKey (QueryEscape k) buf (Values.lookup v k)) (joinPairs acc) =
        joinPairs (acc ++ ks.flatMap (fun k => (Values.lookup v k).map (fun x => (k, x)))) := by
  induction ks with
  | nil => intro acc; simp
  | cons k rest ih =>
    intro acc
    rw [List.foldl_cons, encodeKey_joinPairs, ih]
    simp

theorem encode_eq_joinPairs (v : Values) : Values.Encode v = joinPairs (sortedPairs v) := by
  unfold Values.Encode sortedPairs
  cases v with
  | nil => simp [sortKeys, joinPairs]
  | cons x xs =>
    have h := encode_foldl (x :: xs) (sortKeys ((x :: xs).map Prod.fst)) []
    simp only [joinPairs, List.nil_append] at h
    simp only [List.length_cons, Nat.add_one_ne_zero, if_false]
    exact h

theorem sortedPairs_streamFilter (f : StreamFilter) :
    sortedPairs (streamFilterValues f) =
      (if f.Continuation ≠ [] then [("continuation".toList, f.Continuation)] else []) ++
      (if f.NewerThan.IsZero = false then [("newerThan".toList, FormatInt f.NewerThan.Unix)]
        else []) ++
      (if f.Ranked ≠ [] then [("ranked".toList, f.Ranked)] else []) ++
      [("streamId".toList, f.ID)] ++
      (if f.UnreadOnly = true then [("unreadOnly".toList, "1".toList)] else []) := by
  unfold streamFilterValues
  by_cases h1 : f.Ranked = [] <;> by_cases h2 : f.UnreadOnly = true <;>
    by_cases h3 : f.NewerThan.IsZero = true <;> by_cases h4 : f.Continuation = [] <;>
    simp only [h1, h2, h3, h4, ne_eq, not_true_eq_false, not_false_eq_true, if_true, if_false,
      Bool.not_true, Bool.not_false, Bool.false_eq_true, Bool.not_eq_true, Bool.not_eq_false] <;>
    rfl

theorem toDigitsCore_pos (fuel n : Nat) (ds : List Char) :
    0 < (Nat.toDigitsCore 10 (fuel + 1) n ds).length := by
  rw [Nat.toDigitsCore]
  split
  · simp
  · cases ds with
    | nil => rw [Nat.toDigitsCore_lens_eq]; omega
    | cons d ds => rw [Nat.toDigitsCore_lens_eq]; omega

theorem digitChar_zero : ∀ n : Fin 10, Nat.digitChar n.val = '0' → n.val = 0 := by
  decide

theorem toDigits_eq_zero (n : Nat) (h : Nat.toDigits 10 n = ['0']) : n = 0 := by
  unfold Nat.toDigits at h
  rw [Nat.toDigitsCore] at h
  split at h
  · rename_i hq
    have hlt : n < 10 := by omega
    have hd : Nat.digitChar n = '0' := by
      have hm : n % 10 = n := Nat.mod_eq_of_lt hlt
      rw [hm] at h
      simpa using h
    exact digitChar_zero ⟨n, hlt⟩ hd
  · rename_i hq
    exfalso
    have hlen := congrArg List.length h
    rw [Nat.toDigitsCore_lens_eq] at hlen
    obtain ⟨m, rfl⟩ : ∃ m, n = m + 1 := ⟨n - 1, by omega⟩
    have := toDigitsCore_pos m ((m + 1) / 10) []
    simp only [List.length_singleton] at hlen
    omega

theorem formatInt_eq_zero (x : Int) : FormatInt x = ['0'] ↔ x = 0 := by
  constructor
  · intro h
    unfold FormatInt at h
    split at h
    · exfalso
      have := (List.cons.inj h).1
      exact absurd this (by decide)
    · have := toDigits_eq_zero _ h
      omega
  · intro h
    subst h
    rfl

theorem utf8Bytes_ne_nil (c : Char) : utf8Bytes c ≠ [] := by
  unfold utf8Bytes
  simp only
  split
  · simp
  · split
    · simp
    · split <;> simp

theorem bytes_eq_nil (s : GoString) (h : bytes s = []) : s = [] := by
  cases s with
  | nil => rfl
  | cons c rest =>
    exfalso
    unfold bytes at h
    rw [List.flatMap_cons] at h
    exact utf8Bytes_ne_nil c (List.append_eq_nil.mp h).1

theorem utf8Bytes_single (c : Char) (b : Nat) (rest : List Nat) (h : utf8Bytes c ++ rest = [b]) :
    c.toNat = b ∧ rest = [] := by
  unfold utf8Bytes at h
  simp only at h
  split at h
  · simpa using h
  · split at h
    · simp at h
    · split at h <;> simp at h

theorem bytes_eq_zero (s : GoString) (h : bytes s = [0x30]) : s = ['0'] := by
  cases s with
  | nil => simp [bytes] at h
  | cons c rest =>
    unfold bytes at h
    rw [List.flatMap_cons] at h
    obtain ⟨hc, hr⟩ := utf8Bytes_single c _ _ h
    have hrest : rest = [] := bytes_eq_nil rest hr
    have hc0 : c = '0' := by
      apply Char.ext
      apply UInt32.ext
      exact hc
    rw [hrest, hc0]

theorem encodeStreamFilter_eq_joinPairs (f : StreamFilter) :
    encodeStreamFilter f = joinPairs (streamFilterParams f) := by
  unfold encodeStreamFilter streamFilterParams
  rw [encode_eq_joinPairs, sortedPairs_streamFilter]

theorem parseQuery_encodeStreamFilter (f : StreamFilter) :
    ParseQuery (encodeStreamFilter f) = some ((streamFilterParams f).map pairBytes) := by
  rw [encodeStreamFilter_eq_joinPairs, parseQuery_joinPairs]

theorem hasParam_iff (f : StreamFilter) (k v : GoString) :
    HasParam (encodeStreamFilter f) k v ↔
      ∃ p ∈ streamFilterParams f, bytes p.1 = bytes k ∧ bytes p.2 = bytes v := by
  unfold HasParam
  rw [parseQuery_encodeStreamFilter]
  constructor
  · rintro ⟨ps, hps, hmem⟩
    have : ps = (streamFilterParams f).map pairBytes := (Option.some.inj hps).symm
    rw [this] at hmem
    obtain ⟨p, hp, he⟩ := List.mem_map.mp hmem
    refine ⟨p, hp, ?_, ?_⟩
    · exact congrArg Prod.fst he
    · exact congrArg Prod.snd he
  · rintro ⟨p, hp, h1, h2⟩
    refine ⟨_, rfl, List.mem_map.mpr ⟨p, hp, ?_⟩⟩
    simp [pairBytes, h1, h2]

theorem mem_streamFilterParams (f : StreamFilter) (p : GoString × GoString)
    (hp : p ∈ streamFilterParams f) :
    (f.Continuation ≠ [] ∧ p = ("continuation".toList, f.Continuation)) ∨
    (f.NewerThan.IsZero = false ∧ p = ("newerThan".toList, FormatInt f.NewerThan.Unix)) ∨
    (f.Ranked ≠ [] ∧ p = ("ranked".toList, f.Ranked)) ∨
    p = ("streamId".toList, f.ID) ∨
    (f.UnreadOnly = true ∧ p = ("unreadOnly".toList, "1".toList)) := by
  unfold streamFilterParams at hp
  simp only [List.mem_append] at hp
  rcases hp with (((hp | hp) | hp) | hp) | hp
  · split at hp
    · rename_i h; exact Or.inl ⟨h, by simpa using hp⟩
    · simp at hp
  · split at hp
    · rename_i h; exact Or.inr (Or.inl ⟨h, by simpa using hp⟩)
    · simp at hp
  · split at hp
    · rename_i h; exact Or.inr (Or.inr (Or.inl ⟨h, by simpa using hp⟩))
    · simp at hp
  · exact Or.inr (Or.inr (Or.inr (Or.inl (by simpa using hp))))
  · split at hp
    · rename_i h; exact Or.inr (Or.inr (Or.inr (Or.inr ⟨h, by simpa using hp⟩)))
    · simp at hp

theorem key_ne (a : GoString) (x : GoString) (h : bytes (a, x).1 = bytes "newerThan".toList)
    (ha : ¬ bytes a = bytes "newerThan".toList) : False :=
  ha h

theorem unix_of_isZero (t : Time) (h : t.IsZero = true) : t.Unix = -62135596800 := by
  unfold Time.IsZero at h
  simp only [Bool.and_eq_true, decide_eq_true_eq] at h
  unfold Time.Unix
  rw [h.1]
  decide

/-- C5: for every filter the encoded query is the `&`-joined text of exactly the parameters
`streamFilterParams f`, and parsing it back gives exactly these parameters, as bytes: `streamId`
always, `ranked`, `unreadOnly=1`, `newerThan` (epoch seconds in decimal) and `continuation`
each exactly when the field is set, and nothing else. -/
theorem encodeStreamFilter_parameters (f : StreamFilter) :
    encodeStreamFilter f = joinPairs (streamFilterParams f) ∧
    ParseQuery (encodeStreamFilter f) = some ((streamFilterParams f).map pairBytes) :=
  ⟨encodeStreamFilter_eq_joinPairs f, parseQuery_encodeStreamFilter f⟩

/-- C6, counterexample: the instant `time.Unix(0, 0)` is not the zero `time.Time`, and a filter
holding it encodes to "newerThan=0&streamId=x": the output does contain `newerThan` with
value `0`, so not every filter is free of it. -/
theorem encodeStreamFilter_epoch_zero :
    (Time.ofUnix 0 0).IsZero = false ∧
    encodeStreamFilter { ID := "x".toList, NewerThan := Time.ofUnix 0 0 } =
      "newerThan=0&streamId=x".toList ∧
    ¬ (∀ f : StreamFilter, ¬ HasParam (encodeStreamFilter f) "newerThan".toList "0".toList) :=
  ⟨by decide, by decide, fun h => h { ID := "x".toList, NewerThan := Time.ofUnix 0 0 }
    ⟨[(bytes "newerThan".toList, bytes "0".toList), (bytes "streamId".toList, bytes "x".toList)],
      by decide, by decide⟩⟩

/-- C6, amended: the output contains `newerThan` with value `0` exactly when
`f.NewerThan.Unix()` is 0; and when `f.NewerThan` is the zero `time.Time` the output contains no
`newerThan` parameter at all. -/
theorem encodeStreamFilter_newerThan_zero (f : StreamFilter) :
    (HasParam (encodeStreamFilter f) "newerThan".toList "0".toList ↔ f.NewerThan.Unix = 0) ∧
    (f.NewerThan.IsZero = true →
      ∀ v, ¬ HasParam (encodeStreamFilter f) "newerThan".toList v) := by
  constructor
  · rw [hasParam_iff]
    constructor
    · rintro ⟨p, hp, hk, hv⟩
      rcases mem_streamFilterParams f p hp with ⟨_, rfl⟩ | ⟨_, rfl⟩ | ⟨_, rfl⟩ | rfl | ⟨_, rfl⟩
      · exact (key_ne _ _ hk (by decide)).elim
      · have h0 : bytes (FormatInt f.NewerThan.Unix) = [0x30] := hv
        exact (formatInt_eq_zero _).mp (bytes_eq_zero _ h0)
      · exact (key_ne _ _ hk (by decide)).elim
      · exact (key_ne _ _ hk (by decide)).elim
      · exact (key_ne _ _ hk (by decide)).elim
    · intro hu
      have hz : f.NewerThan.IsZero = false := by
        cases hzz : f.NewerThan.IsZero with
        | false => rfl
        | true =>
          have := unix_of_isZero _ hzz
          rw [hu] at this
          exact absurd this (by decide)
      refine ⟨("newerThan".toList, FormatInt f.NewerThan.Unix), ?_, rfl, ?_⟩
      · unfold streamFilterParams
        simp [hz]
      · rw [hu]
        rfl
  · intro hz v
    rw [hasParam_iff]
    rintro ⟨p, hp, hk, _⟩
    rcases mem_streamFilterParams f p hp with ⟨_, rfl⟩ | ⟨h, rfl⟩ | ⟨_, rfl⟩ | rfl | ⟨_, rfl⟩
    · exact (key_ne _ _ hk (by decide)).elim
    · rw [hz] at h
      exact absurd h (by decide)
    · exact (key_ne _ _ hk (by decide)).elim
    · exact (key_ne _ _ hk (by decide)).elim
    · exact (key_ne _ _ hk (by decide)).elim

/-! ## The title parser -/

theorem parse_of_separator (data : Entry) (s : State) (h : '-' ∈ data.Title) :
    ∃ artist rest title a t,
      data.Title = artist ++ '-' :: rest ∧ '-' ∉ artist ∧ CutAtLastBracket title rest ∧
      Trimmed a artist ∧ Trimmed t title ∧
      parseFunkySoulsEntry data s =
        (none, { s with stdout := s.stdout ++ [{ Artist := a, Title := t }] }) := by
  obtain ⟨artist, rest, hs, ha, hsplit⟩ := splitN_two_mem data.Title '-' h
  by_cases hb : '[' ∈ rest
  · obtain ⟨b, tl, hr, htl, hidx⟩ := lastIndexByte_mem rest '[' hb
    refine ⟨artist, rest, b, TrimSpace artist, TrimSpace b, hs, ha, Or.inr ⟨tl, hr, htl⟩,
      trimSpace_spec artist, trimSpace_spec b, ?_⟩
    have hne : ¬ ((b.length : Int) = -1) := by omega
    have htake : List.take b.length rest = b := by rw [hr]; simp
    simp [parseFunkySoulsEntry, hsplit, hidx, hne, htake]
  · refine ⟨artist, rest, rest, TrimSpace artist, TrimSpace rest, hs, ha, Or.inl ⟨hb, rfl⟩,
      trimSpace_spec artist, trimSpace_spec rest, ?_⟩
    simp [parseFunkySoulsEntry, hsplit, lastIndexByte_not_mem rest '[' hb]

/-- C1: for every title that contains a `-`, `parseFunkySoulsEntry` returns no error and prints
one `AlbumMeta`: the title splits at its first `-` into `artist` and `rest`, `rest` is cut at
(and excluding) its last `[` when it has one, and the printed `Artist` and `Title` are these
two texts with leading and trailing whitespace removed. -/
theorem parseFunkySoulsEntry_artist_title (data : Entry) (s : State) (h : '-' ∈ data.Title) :
    ∃ artist rest title a t,
      data.Title = artist ++ '-' :: rest ∧ '-' ∉ artist ∧ CutAtLastBracket title rest ∧
      Trimmed a artist ∧ Trimmed t title ∧
      parseFunkySoulsEntry data s =
        (none, { s with stdout := s.stdout ++ [{ Artist := a, Title := t }] }) :=
  parse_of_separator data s h

theorem parseFunkySoulsEntry_artist_title_witness :
    '-' ∈ "Artist Name - Some Album [2019, FLAC]".toList ∧
    (∃ artist rest title a t,
      "Artist Name - Some Album [2019, FLAC]".toList = artist ++ '-' :: rest ∧ '-' ∉ artist ∧
      CutAtLastBracket title rest ∧ Trimmed a artist ∧ Trimmed t title ∧
      parseFunkySoulsEntry { Title := "Artist Name - Some Album [2019, FLAC]".toList } NewClient =
        (none, { NewClient with
          stdout := NewClient.stdout ++ [{ Artist := a, Title := t }] })) ∧
    (parseFunkySoulsEntry { Title := "Artist Name - Some Album [2019, FLAC]".toList }
        NewClient).2.stdout =
      [{ Artist := "Artist Name".toList, Title := "Some Album".toList }] ∧
    (parseFunkySoulsEntry { Title := "  Artist   -   Title  ".toList } NewClient).2.stdout =
      [{ Artist := "Artist".toList, Title := "Title".toList }] :=
  ⟨by decide,
   parseFunkySoulsEntry_artist_title
     { Title := "Artist Name - Some Album [2019, FLAC]".toList } NewClient (by decide),
   by decide, by decide⟩

/-- C2: `parseFunkySoulsEntry` returns an error exactly when the title contains no `-`; the
error carries the title, and with an error nothing is printed and the state is unchanged, as
for the title "No Separator Here". -/
theorem parseFunkySoulsEntry_error_iff (data : Entry) (s : State) :
    ((parseFunkySoulsEntry data s).1 ≠ none ↔ '-' ∉ data.Title) ∧
    ((parseFunkySoulsEntry data s).1 ≠ none →
      parseFunkySoulsEntry data s =
        (some (GoError.errorf "could not parse album title %q: unsupported format".toList
          [data.Title]), s)) ∧
    (∀ d : Entry, d.Title = "No Separator Here".toList →
      (parseFunkySoulsEntry d s).1 ≠ none ∧ (parseFunkySoulsEntry d s).2 = s) := by
  have key : ∀ d : Entry, '-' ∉ d.Title → parseFunkySoulsEntry d s =
      (some (GoError.errorf "could not parse album title %q: unsupported format".toList
          [d.Title]), s) := by
    intro d hd
    simp [parseFunkySoulsEntry, splitN_two_not_mem d.Title '-' hd]
  have ok : '-' ∈ data.Title → (parseFunkySoulsEntry data s).1 = none := by
    intro hd
    obtain ⟨_, _, _, _, _, _, _, _, _, _, he⟩ := parse_of_separator data s hd
    rw [he]
  refine ⟨⟨?_, ?_⟩, ?_, ?_⟩
  · intro hne hd
    exact hne (ok hd)
  · intro hd
    rw [key data hd]
    simp
  · intro hne
    by_cases hd : '-' ∈ data.Title
    · exact absurd (ok hd) hne
    · exact key data hd
  · intro d hd
    have hm : '-' ∉ d.Title := by rw [hd]; decide
    rw [key d hm]
    simp

/-! ## The client and the board run -/

theorem parseFunkySoulsEntry_frame (data : Entry) (s : State) :
    (parseFunkySoulsEntry data s).2.calls = s.calls ∧
      (parseFunkySoulsEntry data s).2.baseURL = s.baseURL := by
  unfold parseFunkySoulsEntry
  simp only
  split <;> simp

theorem parseAlbumFromEntry_frame (data : Entry) (s : State) :
    (parseAlbumFromEntry data s).2.calls = s.calls ∧
      (parseAlbumFromEntry data s).2.baseURL = s.baseURL := by
  unfold parseAlbumFromEntry
  split
  · exact parseFunkySoulsEntry_frame data s
  · simp

theorem parseAll_frame (items : List Entry) :
    ∀ s : State, (parseAll items s).calls = s.calls ∧ (parseAll items s).baseURL = s.baseURL := by
  induction items with
  | nil => intro s; simp [parseAll]
  | cons d rest ih =>
    intro s
    rw [parseAll, (ih _).1, (ih _).2]
    exact parseAlbumFromEntry_frame d s

/-- C3, counterexample: for the title "Artist - Title - Extra - [tag]" the printed `AlbumMeta`
is not Artist "Artist", Title "Title - Extra". -/
theorem parseFunkySoulsEntry_extra_counterexample :
    (parseFunkySoulsEntry { Title := "Artist - Title - Extra - [tag]".toList } NewClient).2.stdout ≠
      [{ Artist := "Artist".toList, Title := "Title - Extra".toList }] := by
  decide

/-- C3, amended: for the title "Artist - Title - Extra - [tag]" the split is at the first `-`
only, the text is cut at the `[` and trimmed of whitespace, which leaves the `-` before the
bracket in place: Artist "Artist", Title "Title - Extra -". -/
theorem parseFunkySoulsEntry_extra (data : Entry) (s : State) :
    parseFunkySoulsEntry { data with Title := "Artist - Title - Extra - [tag]".toList } s =
      (none, { s with stdout := s.stdout ++
        [{ Artist := "Artist".toList, Title := "Title - Extra -".toList }] }) := by
  rfl

/-- C4: `parseAlbumFromEntry` returns `nil` for every entry; for an entry whose origin URL is
empty, so not the registered key, it returns `nil` and leaves the state unchanged: the error it
builds with `fmt.Errorf` is dropped. -/
theorem parseAlbumFromEntry_returns_nil (data : Entry) (s : State) :
    (parseAlbumFromEntry data s).1 = none ∧
    parseAlbumFromEntry { data with Origin := { URL := [], Title := "Some Blog".toList } } s =
      (none, s) := by
  constructor
  · unfold parseAlbumFromEntry
    split <;> rfl
  · rfl

/-- C7: with an empty `ID`, `StreamListEntries` and `StreamContent` return the error
"no stream id" with zero results and leave the state, the recorded calls included, unchanged;
with a non-empty `ID` each of them adds exactly one fetch call to the recorded calls. -/
theorem stream_calls_need_id (net : Remote) (f : StreamFilter) (s : State) :
    (f.ID = [] →
      Client.StreamListEntries net f s =
        ((([], []), some (GoError.new "no stream id".toList)), s) ∧
      Client.StreamContent net f s = (({}, some (GoError.new "no stream id".toList)), s)) ∧
    (f.ID ≠ [] →
      (Client.StreamListEntries net f s).2.calls =
        s.calls ++ [Call.fetch (idsURL s.baseURL f)] ∧
      (Client.StreamContent net f s).2.calls =
        s.calls ++ [Call.fetch (contentsURL s.baseURL f)]) := by
  constructor
  · intro h
    simp [Client.StreamListEntries, Client.StreamContent, h]
  · intro h
    simp [Client.StreamListEntries, Client.StreamContent, h, Client.Fetch, idsURL, contentsURL]

/-- C8: `Entries` called with no ids hands one POST to the send collaborator and returns what
the collaborator answers; against a collaborator that answers with no entries and no error, it
returns a `nil` error. -/
theorem entries_empty_ids_sends (net : Remote) (s : State) :
    (Client.Entries net [] s).2.calls =
      s.calls ++ [Call.send (URL.String { s.baseURL with Path := "/v3/entries/.mget".toList }) []] ∧
    (Client.Entries net [] s).1 =
      net.entries s.calls (URL.String { s.baseURL with Path := "/v3/entries/.mget".toList }) [] ∧
    Client.Entries (scriptedRemote [] []) [] NewClient =
      (([], none), { NewClient with
        baseURL := { parsedDefaultURL with Path := "/v3/entries/.mget".toList },
        calls := [Call.send "https://cloud.feedly.com/v3/entries/.mget".toList []] }) := by
  refine ⟨rfl, rfl, by decide⟩

/-- C10: on a fresh client, a `Tags` call made after `StreamContent` with filter ID "x"
requests ".../v3/tags?streamId=x", while a first `Tags` call requests ".../v3/tags". -/
theorem tags_after_stream_keeps_query (net : Remote) :
    (Client.Tags net (Client.StreamContent net { ID := "x".toList } NewClient).2).2.calls =
      [Call.fetch "https://cloud.feedly.com/v3/streams/contents?streamId=x".toList,
       Call.fetch "https://cloud.feedly.com/v3/tags?streamId=x".toList] ∧
    (Client.Tags net NewClient).2.calls = [Call.fetch "https://cloud.feedly.com/v3/tags".toList] := by
  constructor <;> rfl

/-- C9, counterexample: against a scripted collaborator with two pages, the first carrying a
continuation token, `getAlbumsFromBoard` makes one stream fetch, for the first page, and prints
the first page's album only; it does not collect all pages. -/
theorem getAlbumsFromBoard_two_pages :
    (getAlbumsFromBoard (scriptedRemote boardTags twoPages) PlaylstrBoard NewClient).2.calls =
      [Call.fetch "https://cloud.feedly.com/v3/tags".toList,
       Call.fetch "https://cloud.feedly.com/v3/streams/contents?streamId=t1".toList] ∧
    (getAlbumsFromBoard (scriptedRemote boardTags twoPages) PlaylstrBoard NewClient).2.stdout =
      [{ Artist := "A".toList, Title := "One".toList }] ∧
    ¬ CollectsAllPages boardTags PlaylstrBoard twoPages := by
  refine ⟨by decide, by decide, ?_⟩
  intro h
  exact absurd h.1 (by decide)

theorem findTag_first (board : GoString) (pre : List Tag) (t : Tag) (post : List Tag)
    (hpre : ∀ x ∈ pre, x.Label ≠ board) (hlabel : t.Label = board) :
    findTag board (pre ++ t :: post) = t := by
  induction pre with
  | nil => simp [findTag, hlabel]
  | cons x rest ih =>
    have hx : ¬ x.Label = board := hpre x (by simp)
    have hrest : ∀ y ∈ rest, y.Label ≠ board := fun y hy => hpre y (by simp [hy])
    simp [findTag, hx, ih hrest]

/-- C9, amended: let the tags fetch succeed with a tag list whose first tag labelled `board` is
`t` (no tag before `t` carries that label).  If `t.ID` is non-empty and the stream fetch
succeeds with `page`, `getAlbumsFromBoard` makes exactly two calls, the tags fetch and one stream
fetch whose filter holds `t.ID` and no continuation, and then parses exactly `page.Items` in
order, whatever continuation `page` carries.  If `t.ID` is empty, the run stops with the error
"no stream id" after the tags fetch, without any stream fetch. -/
theorem getAlbumsFromBoard_one_fetch (net : Remote) (board : GoString) (s : State)
    (pre : List Tag) (t : Tag) (post : List Tag) (page : StreamContent)
    (htags : net.tags s.calls (tagsURL s.baseURL) = (pre ++ t :: post, none))
    (hpre : ∀ x ∈ pre, x.Label ≠ board)
    (hlabel : t.Label = board) :
    (t.ID ≠ [] →
      net.streamContent (s.calls ++ [Call.fetch (tagsURL s.baseURL)])
        (contentsURL s.baseURL { ID := t.ID }) = (page, none) →
      getAlbumsFromBoard net board s =
        (Outcome.returned, parseAll page.Items
          { s with
            baseURL := { s.baseURL with
              Path := "/v3/streams/contents".toList,
              RawQuery := encodeStreamFilter { ID := t.ID } },
            calls := s.calls ++ [Call.fetch (tagsURL s.baseURL),
              Call.fetch (contentsURL s.baseURL { ID := t.ID })] }) ∧
      (getAlbumsFromBoard net board s).2.calls =
        s.calls ++ [Call.fetch (tagsURL s.baseURL),
          Call.fetch (contentsURL s.baseURL { ID := t.ID })]) ∧
    (t.ID = [] →
      getAlbumsFromBoard net board s =
        (Outcome.fatal (GoError.new "no stream id".toList),
          { s with
            baseURL := { s.baseURL with Path := "/v3/tags".toList },
            calls := s.calls ++ [Call.fetch (tagsURL s.baseURL)] })) := by
  have hfind := findTag_first board pre t post hpre hlabel
  unfold tagsURL at htags
  constructor
  · intro hid hpage
    have hrun : getAlbumsFromBoard net board s =
        (Outcome.returned, parseAll page.Items
          { s with
            baseURL := { s.baseURL with
              Path := "/v3/streams/contents".toList,
              RawQuery := encodeStreamFilter { ID := t.ID } },
            calls := s.calls ++ [Call.fetch (tagsURL s.baseURL),
              Call.fetch (contentsURL s.baseURL { ID := t.ID })] }) := by
      unfold tagsURL contentsURL at hpage
      simp only [getAlbumsFromBoard, Client.Tags, Client.Fetch, htags, hfind,
        Client.StreamContent, hid, if_false, hpage, tagsURL, contentsURL, List.append_assoc,
        List.singleton_append]
    have hcalls : (getAlbumsFromBoard net board s).2.calls =
        s.calls ++ [Call.fetch (tagsURL s.baseURL),
          Call.fetch (contentsURL s.baseURL { ID := t.ID })] := by
      rw [hrun]
      exact (parseAll_frame _ _).1
    exact ⟨hrun, hcalls⟩
  · intro hid
    simp only [getAlbumsFromBoard, Client.Tags, Client.Fetch, htags, hfind,
      Client.StreamContent, hid, if_true, tagsURL]

theorem getAlbumsFromBoard_one_fetch_witness :
    (getAlbumsFromBoard (scriptedRemote boardTags twoPages) PlaylstrBoard NewClient =
      (Outcome.returned, parseAll (twoPages.getD 0 {}).Items
        { NewClient with
          baseURL := { NewClient.baseURL with
            Path := "/v3/streams/contents".toList,
            RawQuery := encodeStreamFilter { ID := "t1".toList } },
          calls := NewClient.calls ++ [Call.fetch (tagsURL NewClient.baseURL),
            Call.fetch (contentsURL NewClient.baseURL { ID := "t1".toList })] })) ∧
    (getAlbumsFromBoard (scriptedRemote boardTags twoPages) PlaylstrBoard NewClient).2.calls =
      [Call.fetch "https://cloud.feedly.com/v3/tags".toList,
       Call.fetch "https://cloud.feedly.com/v3/streams/contents?streamId=t1".toList] ∧
    streamFetchCount
      (getAlbumsFromBoard (scriptedRemote boardTags twoPages) PlaylstrBoard NewClient).2.calls =
        1 ∧
    getAlbumsFromBoard
        (scriptedRemote [{ Label := "Yr Next Playlist".toList },
          { ID := "t2".toList, Label := "Yr Next Playlist".toList }] twoPages)
        PlaylstrBoard NewClient =
      (Outcome.fatal (GoError.new "no stream id".toList),
        { NewClient with
          baseURL := { NewClient.baseURL with Path := "/v3/tags".toList },
          calls := [Call.fetch "https://cloud.feedly.com/v3/tags".toList] }) :=
  ⟨((getAlbumsFromBoard_one_fetch (scriptedRemote boardTags twoPages) PlaylstrBoard NewClient
      [{ ID := "t0".toList, Label := "Saved".toList }]
      { ID := "t1".toList, Label := "Yr Next Playlist".toList }
      [{ ID := "t2".toList, Label := "Yr Next Playlist".toList }]
      (twoPages.getD 0 {}) rfl (by decide) rfl).1 (by decide) rfl).1,
   by decide, by decide,
   (getAlbumsFromBoard_one_fetch
      (scriptedRemote [{ Label := "Yr Next Playlist".toList },
        { ID := "t2".toList, Label := "Yr Next Playlist".toList }] twoPages)
      PlaylstrBoard NewClient [] { Label := "Yr Next Playlist".toList }
      [{ ID := "t2".toList, Label := "Yr Next Playlist".toList }]
      (twoPages.getD 0 {}) rfl (by decide) rfl).2 rfl⟩

end Playlstr
